import Mathlib

/-!
Verification development for the `dockedup` repository (an interactive Docker
Compose monitor).  The Python sources `src/dockedup/utils.py`,
`src/dockedup/docker_monitor.py` and `src/dockedup/cli.py` are shallowly
embedded below: pure functions become Lean functions, Python dictionaries
become association lists with insert-or-replace semantics, Python `None` and
absent dictionary keys become `Option`, CPython floats are modelled by exact
rationals (all concrete values appearing in the claims are exactly
representable, and every formatting step below is exact at those values), and
code paths that raise exceptions return `Except` values carrying the exception
name.
-/

namespace DockedUp

/-! ### Python string primitives -/

/-- Boolean lexicographic comparison of character lists by code point.  This is
exactly how CPython compares `str` values (`a <= b`). -/
def charListLe : List Char → List Char → Bool
  | [], _ => true
  | _ :: _, [] => false
  | a :: as, b :: bs =>
    if a < b then true
    else if b < a then false
    else charListLe as bs

/-- Python string comparison `a <= b` as a computable Bool. -/
def pyLe (a b : String) : Bool :=
  charListLe a.data b.data

/-- The Python string order as a Lean relation (used as the sort relation). -/
def pyLeP (a b : String) : Prop := pyLe a b = true

instance : DecidableRel pyLeP :=
  fun a b => inferInstanceAs (Decidable (pyLe a b = true))

/-- Test whether the second character list starts with the first. -/
def startsWithB : List Char → List Char → Bool
  | [], _ => true
  | _ :: _, [] => false
  | a :: as, b :: bs => a == b && startsWithB as bs

/-- Test whether `sub` occurs contiguously anywhere in the second list. -/
def hasInfixB (sub : List Char) : List Char → Bool
  | [] => startsWithB sub []
  | b :: bs => startsWithB sub (b :: bs) || hasInfixB sub bs

/-- Python substring test `sub in s`. -/
def strContains (s sub : String) : Bool :=
  hasInfixB sub.data s.data

/-- Python `str.capitalize()` for ASCII data: first character upper-cased, the
rest lower-cased. -/
def capitalize (s : String) : String :=
  match s.data with
  | [] => ""
  | c :: rest => String.mk (c.toUpper :: rest.map Char.toLower)

/-- Python truthiness of an optional string: `None` and `""` are falsy. -/
def pyTruthy : Option String → Bool
  | none => false
  | some s => !(s == "")

/-! ### Fixed-point decimal formatting

CPython's `f"{x:.df}"` formats a float with `d` decimal places using
round-half-even.  We model it on exact rationals; every value the claims
evaluate is exactly representable in binary floating point and never a tie, so
the model and CPython agree on all inputs used below. -/

/-- Round a nonnegative rational to the nearest integer, ties to even. -/
def roundHalfEven (q : ℚ) : ℤ :=
  let fl : ℤ := Int.ediv q.num (q.den : ℤ)
  let frac : ℚ := q - (fl : ℚ)
  if frac < 1/2 then fl
  else if 1/2 < frac then fl + 1
  else if fl % 2 = 0 then fl else fl + 1

/-- Format a rational with `d` digits after the decimal point, as Python's
`f"{x:.df}"` string formatting does. -/
def formatFixed (d : ℕ) (q : ℚ) : String :=
  let qabs : ℚ := if q < 0 then -q else q
  let scaled : ℚ := qabs * (10 : ℚ) ^ d
  let m : ℕ := (roundHalfEven scaled).toNat
  let ip : ℕ := m / 10 ^ d
  let fp : ℕ := m % 10 ^ d
  let fpStr : String := Nat.repr fp
  let pad : String := String.mk (List.replicate (d - fpStr.length) '0')
  (if q < 0 then "-" else "") ++ Nat.repr ip ++
    (if d = 0 then "" else "." ++ pad ++ fpStr)

/-! ### Formatters from `src/dockedup/utils.py` -/

/-- Result of `format_status` (utils.py lines 3-27): the pair
`(status_display, health_display)`. -/
def format_status (container_status : String) (health_status : Option String) :
    String × String :=
  let status_display :=
    if strContains container_status "running" || strContains container_status "up" then
      "[green]✅ Up[/green]"
    else if strContains container_status "restarting" then
      "[yellow]🔁 Restarting[/yellow]"
    else if strContains container_status "exited" || strContains container_status "dead" then
      "[red]❌ Down[/red]"
    else
      "[grey50]❓ " ++ capitalize container_status ++ "[/grey50]"
  let health_display :=
    match health_status with
    | none => "[grey50]—[/grey50]"
    | some h =>
      if h = "" then "[grey50]—[/grey50]"
      else if h = "healthy" then "[green]🟢 Healthy[/green]"
      else if h = "unhealthy" then "[red]🔴 Unhealthy[/red]"
      else if h = "starting" then "[yellow]🟡 Starting[/yellow]"
      else "[grey50]" ++ h ++ "[/grey50]"
  (status_display, health_display)

/-- One entry of a host-binding list, a dict with optional keys `HostPort` and
`HostIp`. -/
structure Binding where
  HostPort : Option String
  HostIp : Option String
deriving DecidableEq, Repr

/-- Line produced by one loop iteration of `format_ports` (utils.py lines
37-46).  A truthy `host_bindings` (a non-None, nonempty list) yields the
mapping line from its first entry; otherwise the dim container-port line. -/
def portLine (pc : String × Option (List Binding)) : String :=
  match pc.2 with
  | some (b :: _) =>
    let host_port := b.HostPort.getD "?"
    let host_ip := b.HostIp.getD "0.0.0.0"
    let ipPart := if host_ip = "0.0.0.0" ∨ host_ip = "::" then "" else host_ip ++ ":"
    ipPart ++ host_port ++ " -> " ++ pc.1
  | _ => "[dim]" ++ pc.1 ++ "[/dim]"

/-- Model of `format_ports` (utils.py lines 29-48).  The port dict is an
association list in insertion order; values may be `None` (no bindings). -/
def format_ports (port_data : List (String × Option (List Binding))) : String :=
  if port_data = [] then "[grey50]—[/grey50]"
  else String.intercalate "\n" ((port_data.foldl (fun parts pc => parts ++ [portLine pc]) []))

/-- Model of `get_compose_project_name` (utils.py lines 50-54); labels are a
dict modelled as an association list with distinct keys. -/
def get_compose_project_name (labels : List (String × String)) : String :=
  (labels.lookup "com.docker.compose.project").getD "(No Project)"

/-! ### Byte formatting (`_format_bytes`, utils.py lines 56-64)

The while loop `while size >= power and n < len(power_labels)` divides by 1024
and increments `n`; since `n` strictly increases and the guard requires
`n < 5`, the loop body runs at most five times, so it is modelled by a
structurally recursive function with fuel `5 - n` (which is extensionally the
loop: the guard fails exactly when the fuel is exhausted). -/

/-- Fueled division loop of `_format_bytes`. -/
def bytesLoopFuel : ℕ → ℚ → ℕ → ℚ × ℕ
  | 0, size, n => (size, n)
  | fuel + 1, size, n =>
    if 1024 ≤ size ∧ n < 5 then bytesLoopFuel fuel (size / 1024) (n + 1)
    else (size, n)

/-- The division loop of `_format_bytes`, entered with counter `n`. -/
def bytesLoop (size : ℚ) (n : ℕ) : ℚ × ℕ :=
  bytesLoopFuel (5 - n) size n

/-- The dict `power_labels = {0: '', 1: 'K', 2: 'M', 3: 'G', 4: 'T'}`;
`none` models a `KeyError` on lookup. -/
def powerLabels : ℕ → Option String
  | 0 => some ""
  | 1 => some "K"
  | 2 => some "M"
  | 3 => some "G"
  | 4 => some "T"
  | _ => none

/-- Model of `_format_bytes` (utils.py lines 56-64).  The final dictionary
lookup `power_labels[n]` raises `KeyError` when `n` is outside `0..4`. -/
def _format_bytes (size : ℤ) : Except String String :=
  match powerLabels (bytesLoop (size : ℚ) 0).2 with
  | some lab => Except.ok (formatFixed 1 (bytesLoop (size : ℚ) 0).1 ++ lab ++ "iB")
  | none => Except.error "KeyError"

/-! ### Memory and CPU stats (`utils.py` lines 66-113) -/

/-- The `memory_stats` dict: optional `usage` and `limit` fields. -/
structure MemStats where
  usage : Option ℤ
  limit : Option ℤ
deriving DecidableEq, Repr

/-- Model of `format_memory_stats` (utils.py lines 66-82).  The division
`usage / limit` raises `ZeroDivisionError` when `limit == 0`; the embedded
`_format_bytes` calls may raise `KeyError`; both propagate (the function has no
exception handler). -/
def format_memory_stats (mem_stats : MemStats) : Except String String :=
  match mem_stats.usage, mem_stats.limit with
  | none, _ => Except.ok "[grey50]—[/grey50]"
  | some _, none => Except.ok "[grey50]—[/grey50]"
  | some usage, some limit =>
    if limit = 0 then Except.error "ZeroDivisionError"
    else
      let mem_percent : ℚ := ((usage : ℚ) / (limit : ℚ)) * 100
      let color := if 85 < mem_percent then "red"
        else if 60 < mem_percent then "yellow" else "cyan"
      match _format_bytes usage with
      | Except.error e => Except.error e
      | Except.ok us =>
        match _format_bytes limit with
        | Except.error e => Except.error e
        | Except.ok ls =>
          Except.ok ("[" ++ color ++ "]" ++ us ++ " / " ++ ls ++ " (" ++
            formatFixed 1 mem_percent ++ "%)[/" ++ color ++ "]")

/-- The `cpu_usage` dict inside `cpu_stats`/`precpu_stats`. -/
structure CpuUsage where
  total_usage : Option ℤ
  percpu_usage : Option (List ℤ)
deriving DecidableEq, Repr

/-- The `cpu_stats`/`precpu_stats` dict. -/
structure CpuStats where
  cpu_usage : Option CpuUsage
  system_cpu_usage : Option ℤ
  online_cpus : Option ℤ
deriving DecidableEq, Repr

/-- The top-level Docker stats object. -/
structure Stats where
  cpu_stats : Option CpuStats
  precpu_stats : Option CpuStats
  memory_stats : Option MemStats
deriving DecidableEq, Repr

/-- The empty dict default used by the `.get(..., {})` calls. -/
def emptyCpuUsage : CpuUsage := ⟨none, none⟩

/-- The empty dict default for `cpu_stats`/`precpu_stats`. -/
def emptyCpuStats : CpuStats := ⟨none, none, none⟩

/-- The empty dict default for `memory_stats`. -/
def emptyMemStats : MemStats := ⟨none, none⟩

/-- The value `cpu_delta` computed at utils.py line 93; every missing field
defaults to `0` through `.get(..., 0)`. -/
def cpuDelta (stats : Stats) : ℤ :=
  ((stats.cpu_stats.getD emptyCpuStats).cpu_usage.getD emptyCpuUsage).total_usage.getD 0 -
    ((stats.precpu_stats.getD emptyCpuStats).cpu_usage.getD emptyCpuUsage).total_usage.getD 0

/-- The value `system_cpu_delta` computed at utils.py line 94. -/
def systemCpuDelta (stats : Stats) : ℤ :=
  (stats.cpu_stats.getD emptyCpuStats).system_cpu_usage.getD 0 -
    (stats.precpu_stats.getD emptyCpuStats).system_cpu_usage.getD 0

/-- The value `online_cpus` after the fallback at utils.py lines 96-98: if the
field is `0` or missing, the length of `percpu_usage` (default `[1]`) is used. -/
def onlineCpus (stats : Stats) : ℤ :=
  let o := (stats.cpu_stats.getD emptyCpuStats).online_cpus.getD 0
  if o = 0 then
    (((stats.cpu_stats.getD emptyCpuStats).cpu_usage.getD emptyCpuUsage).percpu_usage.getD [1]).length
  else o

/-- The percentage computed at utils.py line 101. -/
def cpuPercent (stats : Stats) : ℚ :=
  ((cpuDelta stats : ℚ) / (systemCpuDelta stats : ℚ)) * (onlineCpus stats : ℚ) * 100

/-- Model of `calculate_cpu_percent` (utils.py lines 84-113).  With a
well-typed stats object every `.get` succeeds (missing keys are defaulted), so
the `except (KeyError, TypeError, ZeroDivisionError)` branch returning `—` is
unreachable; the guard `system_cpu_delta > 0 and cpu_delta > 0` also makes the
division safe. -/
def calculate_cpu_percent (stats : Stats) : String :=
  if 0 < systemCpuDelta stats ∧ 0 < cpuDelta stats then
    let percent := cpuPercent stats
    let color := if 80 < percent then "red" else if 50 < percent then "yellow" else "cyan"
    "[" ++ color ++ "]" ++ formatFixed 2 percent ++ "%[/" ++ color ++ "]"
  else "[grey50]0.00%[/grey50]"

/-! ### Python dictionaries as association lists

A CPython dict preserves key insertion order; assigning to an existing key
replaces the value in place.  `dictInsert` and `dictGet` model exactly that. -/

/-- Insert-or-replace into an association list (Python `d[k] = v`). -/
def dictInsert {K V : Type} [DecidableEq K] (k : K) (v : V) :
    List (K × V) → List (K × V)
  | [] => [(k, v)]
  | (k₀, v₀) :: rest =>
    if k₀ = k then (k₀, v) :: rest else (k₀, v₀) :: dictInsert k v rest

/-- Lookup in an association list (Python `d[k]` / `k in d`). -/
def dictGet {K V : Type} [DecidableEq K] (d : List (K × V)) (k : K) : Option V :=
  match d with
  | [] => none
  | (k₀, v₀) :: rest => if k₀ = k then some v₀ else dictGet rest k

/-! ### App state (`src/dockedup/cli.py`, class `AppState`)

Only the fields the verified operations read or write are modelled; the lock,
the `ui_updated` event and `debug_mode` play no role in the claims (the
operations hold the single mutex for their whole body, so each call is atomic
and is modelled as a pure state transformer). -/

/-- An entry of the flat container list handed to `update_containers`: a dict
whose `id` key is read with `.get` (so it may be absent) and whose `project`
key is read with mandatory indexing. -/
structure FlatContainer where
  id : Option String
  project : String
deriving DecidableEq, Repr

/-- The mutable fields of `AppState` used by the modelled operations.  Every
assignment to `selected_index` in the source writes a nonnegative value (0, a
dict index, a clamped value, or a loop index), so it is modelled as a natural
number; `current_page` is kept as an integer. -/
structure AppState where
  all_containers : List FlatContainer
  selected_index : ℕ
  container_id_to_index : List (Option String × ℕ)
  current_page : ℤ
  projects_per_page : ℕ
deriving DecidableEq, Repr

/-- Model of `AppState._get_selected_container_id_unsafe` (cli.py lines
86-90): the selected record's `id` value, or `None` when the list is empty or
the index is out of range. -/
def getSelectedIdUnsafe (s : AppState) : Option String :=
  match s.all_containers[s.selected_index]? with
  | some c => c.id
  | none => none

/-- The dict comprehension at cli.py line 70,
`{c.get('id'): i for i, c in enumerate(containers)}`: later entries with the
same key overwrite earlier ones. -/
def buildIdMapAux : ℕ → List FlatContainer → List (Option String × ℕ) →
    List (Option String × ℕ)
  | _, [], d => d
  | i, c :: cs, d => buildIdMapAux (i + 1) cs (dictInsert c.id i d)

/-- The id-to-index dict built from a flat list. -/
def buildIdMap (containers : List FlatContainer) : List (Option String × ℕ) :=
  buildIdMapAux 0 containers []

/-- Model of `AppState.update_containers` (cli.py lines 65-77).  Note the
Python guard `if current_id and current_id in self.container_id_to_index`:
a `None` or empty-string id is falsy and always falls through to the reset
branches (both of which set the index to 0). -/
def update_containers (s : AppState) (containers : List FlatContainer) : AppState :=
  let current_id := getSelectedIdUnsafe s
  let m := buildIdMap containers
  let sel :=
    if pyTruthy current_id then
      match dictGet m current_id with
      | some j => j
      | none => 0
    else 0
  { s with all_containers := containers, container_id_to_index := m,
           selected_index := sel }

/-- The expression `sorted(set(c['project'] for c in ...))` used by
`change_page` (cli.py line 121): the distinct project names in ascending
string order. -/
def projectsOf (containers : List FlatContainer) : List String :=
  List.insertionSort pyLeP ((containers.map FlatContainer.project).dedup)

/-- The value `total_pages` computed at cli.py line 122 (ceiling division;
`projects_per_page` is fixed at 5 by `__init__` and in particular positive, so
the Python division cannot raise). -/
def totalPagesOf (s : AppState) : ℕ :=
  ((projectsOf s.all_containers).length + s.projects_per_page - 1) / s.projects_per_page

/-- Model of `AppState.change_page` (cli.py lines 118-139).  Python's `%` on a
positive modulus returns a nonnegative result, which `Int.emod` matches, so
the `if self.current_page < 0` fix-up is dead code (kept in the model). -/
def change_page (s : AppState) (delta : ℤ) : AppState :=
  let projects := projectsOf s.all_containers
  let total_pages := totalPagesOf s
  if total_pages = 0 then s
  else
    let cp0 := (s.current_page + delta) % (total_pages : ℤ)
    let cp := if cp0 < 0 then cp0 + total_pages else cp0
    let start_project_index : ℤ := cp * (s.projects_per_page : ℤ)
    if projects ≠ [] ∧ start_project_index < (projects.length : ℤ) then
      match projects[start_project_index.toNat]? with
      | some target =>
        match s.all_containers.findIdx? (fun c => c.project == target) with
        | some i => { s with current_page := cp, selected_index := i }
        | none => { s with current_page := cp }
      | none => { s with current_page := cp }
    else { s with current_page := cp, selected_index := 0 }

/-! ### Container monitor (`src/dockedup/docker_monitor.py`)

`get_grouped_containers` iterates over the daemon's containers, formats each
one and groups the formatted records by Compose project.  The network-facing
inputs are modelled by a record carrying exactly the attributes the function
reads; a `stats` value of `none` models the `NotFound`/`DockerException`
escape at lines 60-61 (which leaves the placeholders in place).  The uptime
formatter `format_uptime` is imported from `utils` but absent from that module
in this source tree, so it is passed as an explicit function parameter; no
claim depends on its output. -/

/-- The formatted record produced for one container (the `FormattedContainer`
`TypedDict` of docker_monitor.py lines 16-25). -/
structure FormattedContainer where
  name : String
  status : String
  health : String
  ports : String
  project : String
  cpu : String
  memory : String
  uptime : String
deriving DecidableEq, Repr

/-- The attributes of one container object that `get_grouped_containers`
reads. -/
structure ContainerInput where
  name : String
  status : String
  health : Option String
  startedAt : Option String
  ports : List (String × Option (List Binding))
  labels : List (String × String)
  stats : Option Stats
deriving DecidableEq, Repr

/-- The loop body of `get_grouped_containers` (docker_monitor.py lines 41-72)
for one container: compute the display fields and build the record.  A
`ZeroDivisionError`/`KeyError` raised by `format_memory_stats` propagates (only
`NotFound` and `DockerException` are caught, and those are modelled by
`stats = none`). -/
def formatContainer (fmtUptime : Option String → String) (c : ContainerInput) :
    Except String FormattedContainer :=
  let sd := format_status c.status c.health
  let cpuMem : Except String (String × String) :=
    if c.status = "running" then
      match c.stats with
      | some st =>
        match format_memory_stats (st.memory_stats.getD emptyMemStats) with
        | Except.error e => Except.error e
        | Except.ok mem => Except.ok (calculate_cpu_percent st, mem)
      | none => Except.ok ("[grey50]—[/grey50]", "[grey50]—[/grey50]")
    else Except.ok ("[grey50]—[/grey50]", "[grey50]—[/grey50]")
  match cpuMem with
  | Except.error e => Except.error e
  | Except.ok cm =>
    Except.ok
      { name := c.name
        status := sd.1
        health := sd.2
        ports := format_ports c.ports
        project := get_compose_project_name c.labels
        cpu := cm.1
        memory := cm.2
        uptime := fmtUptime c.startedAt }

/-- Sequential formatting of the container list with exception propagation
(the `for` loop aborts at the first uncaught exception). -/
def mapE {α β : Type} (f : α → Except String β) : List α → Except String (List β)
  | [] => Except.ok []
  | a :: as =>
    match f a with
    | Except.error e => Except.error e
    | Except.ok b =>
      match mapE f as with
      | Except.error e => Except.error e
      | Except.ok bs => Except.ok (b :: bs)

/-- Appending one formatted record to its project group, as
`grouped_containers[project].append(formatted)` does on a
`defaultdict(list)`: a new project key is appended at the end, an existing
group grows at its tail. -/
def addToGroup (gs : List (String × List FormattedContainer))
    (f : FormattedContainer) : List (String × List FormattedContainer) :=
  match gs with
  | [] => [(f.project, [f])]
  | (p, cs) :: rest =>
    if p = f.project then (p, cs ++ [f]) :: rest
    else (p, cs) :: addToGroup rest f

/-- Sort relation on formatted records used by
`grouped_containers[project].sort(key=lambda c: c['name'])`. -/
def nameLe (a b : FormattedContainer) : Prop := pyLeP a.name b.name

/-- Sort relation on `(project, group)` pairs used by
`dict(sorted(grouped_containers.items()))`; keys are distinct, so comparing
keys alone reproduces Python's tuple comparison. -/
def keyLe (a b : String × List FormattedContainer) : Prop := pyLeP a.1 b.1

instance : DecidableRel nameLe :=
  fun a b => inferInstanceAs (Decidable (pyLe a.name b.name = true))

instance : DecidableRel keyLe :=
  fun a b => inferInstanceAs (Decidable (pyLe a.1 b.1 = true))

/-- Model of `get_grouped_containers` (docker_monitor.py lines 36-78): format
every container, group by project in encounter order, sort each group by
container name, and return the groups sorted by project name. -/
def get_grouped_containers (fmtUptime : Option String → String)
    (containers : List ContainerInput) :
    Except String (List (String × List FormattedContainer)) :=
  match mapE (formatContainer fmtUptime) containers with
  | Except.error e => Except.error e
  | Except.ok fs =>
    let grouped := fs.foldl addToGroup []
    let sortedGroups := grouped.map fun pc => (pc.1, List.insertionSort nameLe pc.2)
    Except.ok (List.insertionSort keyLe sortedGroups)

/-! ### Concrete sample data referenced by the claims -/

/-- The stats sample of spec scenario 4: `cpu_stats.total=2000, precpu.total=1000,
system=10000, presystem=5000, online=2`, `mem.usage=50·2^20, limit=100·2^20`. -/
def sampleStats : Stats :=
  { cpu_stats := some
      { cpu_usage := some { total_usage := some 2000, percpu_usage := none }
        system_cpu_usage := some 10000
        online_cpus := some 2 }
    precpu_stats := some
      { cpu_usage := some { total_usage := some 1000, percpu_usage := none }
        system_cpu_usage := some 5000
        online_cpus := none }
    memory_stats := some { usage := some (50 * 2 ^ 20), limit := some (100 * 2 ^ 20) } }

/-- The memory_stats dict of spec scenario 4. -/
def sampleMem : MemStats := ⟨some (50 * 2 ^ 20), some (100 * 2 ^ 20)⟩

/-- A stats object with every field missing (the empty dict `{}`). -/
def emptyStats : Stats := ⟨none, none, none⟩

/-- An app state whose single container (id `"a"`) is selected. -/
def c1State : AppState :=
  { all_containers := [⟨some "a", "p"⟩], selected_index := 0,
    container_id_to_index := [], current_page := 0, projects_per_page := 5 }

/-- A refreshed flat list in which container `"a"` moved to position 1. -/
def c1NewList : List FlatContainer := [⟨some "b", "p"⟩, ⟨some "a", "p"⟩]

/-- An app state whose single container has the empty string as id. -/
def c1EmptyIdState : AppState :=
  { all_containers := [⟨some "", "p"⟩], selected_index := 0,
    container_id_to_index := [], current_page := 0, projects_per_page := 5 }

/-- A refreshed flat list containing the empty-string id at position 1. -/
def c1EmptyIdNewList : List FlatContainer := [⟨some "x", "p"⟩, ⟨some "", "p"⟩]

/-- Two exited containers, one labelled with compose project `beta`, one
unlabelled (grouped under `(No Project)`). -/
def c2Inputs : List ContainerInput :=
  [{ name := "web", status := "exited", health := none, startedAt := none,
     ports := [], labels := [("com.docker.compose.project", "beta")], stats := none },
   { name := "db", status := "exited", health := none, startedAt := none,
     ports := [], labels := [], stats := none }]

/-- An app state with six single-container projects (two pages of five and
one), on page 0. -/
def c4State : AppState :=
  { all_containers := [⟨some "1", "a"⟩, ⟨some "2", "b"⟩, ⟨some "3", "c"⟩,
      ⟨some "4", "d"⟩, ⟨some "5", "e"⟩, ⟨some "6", "f"⟩],
    selected_index := 0, container_id_to_index := [], current_page := 0,
    projects_per_page := 5 }

/-! ## Theorems

Helper lemmas first, then one theorem per claim (with witnesses and
counterexamples as required). -/

/-! ### The `_format_bytes` division loop -/

theorem bytesLoopFuel_stop (fuel : ℕ) (q : ℚ) (n : ℕ) (h : ¬(1024 ≤ q ∧ n < 5)) :
    bytesLoopFuel fuel q n = (q, n) := by
  cases fuel <;> simp [bytesLoopFuel, h]

theorem bytesLoop_stop (q : ℚ) (n : ℕ) (h : ¬(1024 ≤ q ∧ n < 5)) :
    bytesLoop q n = (q, n) := bytesLoopFuel_stop _ _ _ h

theorem bytesLoop_step (q : ℚ) (n : ℕ) (h1 : 1024 ≤ q) (h2 : n < 5) :
    bytesLoop q n = bytesLoop (q / 1024) (n + 1) := by
  unfold bytesLoop
  have h5 : 5 - n = (5 - (n + 1)) + 1 := by omega
  rw [h5]
  simp [bytesLoopFuel, h1, h2]

theorem bytesLoop_of_range : ∀ (j n : ℕ), n + j ≤ 5 → ∀ q : ℚ,
    ((1024 : ℚ) ^ j ≤ q ∨ j = 0) → q < 1024 ^ (j + 1) →
    bytesLoop q n = (q / 1024 ^ j, n + j) := by
  intro j
  induction j with
  | zero =>
    intro n _ q _ hhi
    rw [bytesLoop_stop]
    · simp
    · rw [pow_one] at hhi
      exact fun hc => absurd hhi (not_lt.mpr hc.1)
  | succ j ih =>
    intro n hn q hlo hhi
    have hlo' : (1024 : ℚ) ^ (j + 1) ≤ q := by
      rcases hlo with h | h
      · exact h
      · exact absurd h (Nat.succ_ne_zero j)
    have h1 : (1024 : ℚ) ≤ q := by
      have : (1024 : ℚ) ^ 1 ≤ 1024 ^ (j + 1) :=
        pow_le_pow_right₀ (by norm_num) (by omega)
      rw [pow_one] at this
      exact this.trans hlo'
    have h2 : n < 5 := by omega
    rw [bytesLoop_step q n h1 h2]
    have hq1024 : (0 : ℚ) < 1024 := by norm_num
    have hstep := ih (n + 1) (by omega) (q / 1024)
      (Or.inl ((le_div_iff₀ hq1024).mpr (by rw [← pow_succ]; exact hlo')))
      ((div_lt_iff₀ hq1024).mpr (by rw [← pow_succ]; exact hhi))
    rw [hstep, div_div, ← pow_succ']
    congr 1
    omega

theorem bytesLoop_of_top : ∀ (j n : ℕ), n + j = 5 → ∀ q : ℚ,
    (1024 : ℚ) ^ j ≤ q → bytesLoop q n = (q / 1024 ^ j, 5) := by
  intro j
  induction j with
  | zero =>
    intro n hn q _
    rw [bytesLoop_stop]
    · simp
      omega
    · intro hc
      omega
  | succ j ih =>
    intro n hn q hlo
    have h1 : (1024 : ℚ) ≤ q := by
      have : (1024 : ℚ) ^ 1 ≤ 1024 ^ (j + 1) :=
        pow_le_pow_right₀ (by norm_num) (by omega)
      rw [pow_one] at this
      exact this.trans hlo
    have h2 : n < 5 := by omega
    rw [bytesLoop_step q n h1 h2]
    have hq1024 : (0 : ℚ) < 1024 := by norm_num
    have hstep := ih (n + 1) (by omega) (q / 1024)
      ((le_div_iff₀ hq1024).mpr (by rw [← pow_succ]; exact hlo))
    rw [hstep, div_div, ← pow_succ']

theorem format_bytes_of_loop (size : ℤ) (q : ℚ) (n : ℕ) (lab : String)
    (h : bytesLoop (size : ℚ) 0 = (q, n)) (hl : powerLabels n = some lab) :
    _format_bytes size = Except.ok (formatFixed 1 q ++ lab ++ "iB") := by
  unfold _format_bytes
  rw [h]
  simp [hl]

theorem format_bytes_ok_of_lt (size : ℤ) (h : size < 1024 ^ 5) :
    ∃ s, _format_bytes size = Except.ok s := by
  have hq : (size : ℚ) < 1024 ^ 5 := by exact_mod_cast h
  by_cases h0 : (size : ℚ) < 1024 ^ 1
  · exact ⟨_, format_bytes_of_loop size _ _ "" (bytesLoop_of_range 0 0 (by omega) _ (Or.inr rfl) h0) rfl⟩
  by_cases h1 : (size : ℚ) < 1024 ^ 2
  · exact ⟨_, format_bytes_of_loop size _ _ "K"
      (bytesLoop_of_range 1 0 (by omega) _ (Or.inl (not_lt.mp h0)) h1) rfl⟩
  by_cases h2 : (size : ℚ) < 1024 ^ 3
  · exact ⟨_, format_bytes_of_loop size _ _ "M"
      (bytesLoop_of_range 2 0 (by omega) _ (Or.inl (not_lt.mp h1)) h2) rfl⟩
  by_cases h3 : (size : ℚ) < 1024 ^ 4
  · exact ⟨_, format_bytes_of_loop size _ _ "G"
      (bytesLoop_of_range 3 0 (by omega) _ (Or.inl (not_lt.mp h2)) h3) rfl⟩
  · exact ⟨_, format_bytes_of_loop size _ _ "T"
      (bytesLoop_of_range 4 0 (by omega) _ (Or.inl (not_lt.mp h3)) hq) rfl⟩

theorem format_bytes_keyerror_of_ge (size : ℤ) (h : 1024 ^ 5 ≤ size) :
    _format_bytes size = Except.error "KeyError" := by
  have hq : (1024 : ℚ) ^ 5 ≤ (size : ℚ) := by exact_mod_cast h
  unfold _format_bytes
  rw [bytesLoop_of_top 5 0 rfl _ hq]
  rfl

/-- C10: `_format_bytes` is total exactly below the TiB rollover: every size
with `0 ≤ size < 1024^5` formats to a string, while every `size ≥ 1024^5`
leaves the suffix index at 5, outside the label table `{0..4}`, and the final
lookup raises `KeyError`. -/
theorem format_bytes_total_iff_below_rollover (size : ℤ) :
    (0 ≤ size → size < 1024 ^ 5 → ∃ s, _format_bytes size = Except.ok s) ∧
    (1024 ^ 5 ≤ size → _format_bytes size = Except.error "KeyError") :=
  ⟨fun _ h => format_bytes_ok_of_lt size h, format_bytes_keyerror_of_ge size⟩

theorem format_bytes_total_iff_below_rollover_witness :
    (∃ s, _format_bytes 5 = Except.ok s) ∧
    _format_bytes (1024 ^ 5) = Except.error "KeyError" :=
  ⟨(format_bytes_total_iff_below_rollover 5).1 (by norm_num) (by norm_num),
   (format_bytes_total_iff_below_rollover (1024 ^ 5)).2 le_rfl⟩

/-- C6 (amended): `_format_bytes` maps 0, 1023, 1024, 1048576, 1073741824 to
`0.0iB`, `1023.0iB`, `1.0KiB`, `1.0MiB`, `1.0GiB`, but a negative size is
formatted like any value below 1024 (sign included, `iB` suffix) rather than
producing the `—` placeholder; a missing input is outside the function's typed
domain. -/
theorem format_bytes_values (size : ℤ) :
    _format_bytes 0 = Except.ok "0.0iB" ∧
    _format_bytes 1023 = Except.ok "1023.0iB" ∧
    _format_bytes 1024 = Except.ok "1.0KiB" ∧
    _format_bytes 1048576 = Except.ok "1.0MiB" ∧
    _format_bytes 1073741824 = Except.ok "1.0GiB" ∧
    (size < 0 → _format_bytes size = Except.ok (formatFixed 1 (size : ℚ) ++ "iB")) := by
  refine ⟨by with_unfolding_all rfl, by with_unfolding_all rfl, by with_unfolding_all rfl,
    by with_unfolding_all rfl, by with_unfolding_all rfl, fun hneg => ?_⟩
  have hq : (size : ℚ) < 1024 ^ 1 := by
    rw [pow_one]
    have : (size : ℚ) < 0 := by exact_mod_cast hneg
    linarith
  have := format_bytes_of_loop size _ _ ""
    (bytesLoop_of_range 0 0 (by omega) _ (Or.inr rfl) hq) rfl
  simpa using this

theorem format_bytes_values_witness :
    _format_bytes (-2) = Except.ok (formatFixed 1 ((-2 : ℤ) : ℚ) ++ "iB") ∧
    formatFixed 1 ((-2 : ℤ) : ℚ) ++ "iB" = "-2.0iB" :=
  ⟨(format_bytes_values (-2)).2.2.2.2.2 (by norm_num), by with_unfolding_all rfl⟩

theorem format_bytes_negative_counterexample :
    _format_bytes (-1) = Except.ok "-1.0iB" ∧ strContains "-1.0iB" "—" = false :=
  ⟨by with_unfolding_all rfl, by rfl⟩

/-! ### CPU percentage (`calculate_cpu_percent`) -/

theorem colored_ne_grey_dash (c rest : String)
    (hc : c = "cyan" ∨ c = "yellow" ∨ c = "red") :
    "[" ++ c ++ "]" ++ rest ≠ "[grey50]—[/grey50]" := by
  rcases hc with h | h | h <;> subst h <;> intro h <;>
    have h2 := congrArg String.data h <;>
    simp [String.data_append] at h2

/-- C5: on the stats sample of spec scenario 4 the CPU display contains
`40.00%` and the memory display contains `50.0MiB / 100.0MiB (50.0%)`. -/
theorem sample_stats_displays :
    (∃ pre post, calculate_cpu_percent sampleStats = pre ++ "40.00%" ++ post) ∧
    (∃ pre post,
      format_memory_stats sampleMem = Except.ok (pre ++ "50.0MiB / 100.0MiB (50.0%)" ++ post)) :=
  ⟨⟨"[cyan]", "[/cyan]", by with_unfolding_all rfl⟩,
   ⟨"[cyan]", "[/cyan]", by with_unfolding_all rfl⟩⟩

/-- C3 (amended): with a well-typed stats object, missing fields default to 0
(and `online_cpus` falls back to the length of `percpu_usage`, default `[1]`),
so `calculate_cpu_percent` never returns the `—` placeholder: it returns the
grey `0.00%` exactly when one of the deltas is not positive — in particular on
a stats object with all fields missing — and the colored percentage whenever
both deltas are positive, regardless of which fields are present.  The `—`
branch is reachable only through a `TypeError` on ill-typed field values,
which the typed embedding excludes. -/
theorem calculate_cpu_percent_spec (s : Stats) :
    calculate_cpu_percent s ≠ "[grey50]—[/grey50]" ∧
    (¬(0 < systemCpuDelta s ∧ 0 < cpuDelta s) →
      calculate_cpu_percent s = "[grey50]0.00%[/grey50]") ∧
    ((0 < systemCpuDelta s ∧ 0 < cpuDelta s) → ∃ c,
      (c = "cyan" ∨ c = "yellow" ∨ c = "red") ∧
      calculate_cpu_percent s =
        "[" ++ c ++ "]" ++ formatFixed 2 (cpuPercent s) ++ "%[/" ++ c ++ "]") := by
  refine ⟨?_, fun h => by simp [calculate_cpu_percent, h], fun h => ?_⟩
  · unfold calculate_cpu_percent
    split
    · set c := if 80 < cpuPercent s then "red"
        else if 50 < cpuPercent s then "yellow" else "cyan" with hc
      have hcor : c = "cyan" ∨ c = "yellow" ∨ c = "red" := by
        rw [hc]; split
        · exact Or.inr (Or.inr rfl)
        · split
          · exact Or.inr (Or.inl rfl)
          · exact Or.inl rfl
      have := colored_ne_grey_dash c
        (formatFixed 2 (cpuPercent s) ++ "%[/" ++ c ++ "]") hcor
      intro heq
      exact this (by rw [← heq]; simp [String.append_assoc])
    · decide
  · refine ⟨if 80 < cpuPercent s then "red" else if 50 < cpuPercent s then "yellow" else "cyan",
      ?_, ?_⟩
    · split
      · exact Or.inr (Or.inr rfl)
      · split
        · exact Or.inr (Or.inl rfl)
        · exact Or.inl rfl
    · simp [calculate_cpu_percent, h]

theorem calculate_cpu_percent_spec_witness :
    ¬(0 < systemCpuDelta emptyStats ∧ 0 < cpuDelta emptyStats) ∧
    calculate_cpu_percent emptyStats = "[grey50]0.00%[/grey50]" :=
  ⟨by decide, (calculate_cpu_percent_spec emptyStats).2.1 (by decide)⟩

theorem calculate_cpu_percent_missing_fields_counterexample :
    calculate_cpu_percent emptyStats = "[grey50]0.00%[/grey50]" ∧
    "[grey50]0.00%[/grey50]" ≠ "[grey50]—[/grey50]" :=
  ⟨rfl, by decide⟩

/-! ### Memory formatting (`format_memory_stats`) -/

/-- C9 (amended): `format_memory_stats` returns the `—` display when `usage`
or `limit` is absent; with both present and `limit = 0` the unguarded division
`usage / limit` raises `ZeroDivisionError`; with both present, `limit ≠ 0` and
both values below `1024^5` it returns a display string; but when either value
reaches `1024^5` (with `limit ≠ 0`) the embedded `_format_bytes` call raises
`KeyError` instead of returning a string. -/
theorem format_memory_stats_spec (u l : Option ℤ) :
    ((u = none ∨ l = none) →
      format_memory_stats ⟨u, l⟩ = Except.ok "[grey50]—[/grey50]") ∧
    (∀ uv lv, u = some uv → l = some lv → lv = 0 →
      format_memory_stats ⟨u, l⟩ = Except.error "ZeroDivisionError") ∧
    (∀ uv lv, u = some uv → l = some lv → lv ≠ 0 →
      uv < 1024 ^ 5 → lv < 1024 ^ 5 →
      ∃ s, format_memory_stats ⟨u, l⟩ = Except.ok s) ∧
    (∀ uv lv, u = some uv → l = some lv → lv ≠ 0 →
      (1024 ^ 5 ≤ uv ∨ (uv < 1024 ^ 5 ∧ 1024 ^ 5 ≤ lv)) →
      format_memory_stats ⟨u, l⟩ = Except.error "KeyError") := by
  refine ⟨fun h => ?_, fun uv lv hu hl h0 => ?_, fun uv lv hu hl h0 hub hlb => ?_,
    fun uv lv hu hl h0 hk => ?_⟩
  · rcases h with h | h
    · subst h; cases l <;> rfl
    · subst h; cases u <;> rfl
  · subst hu; subst hl; subst h0
    simp [format_memory_stats]
  · subst hu; subst hl
    obtain ⟨su, hsu⟩ := format_bytes_ok_of_lt uv hub
    obtain ⟨sl, hsl⟩ := format_bytes_ok_of_lt lv hlb
    simp only [format_memory_stats, if_neg h0, hsu, hsl]
    exact ⟨_, rfl⟩
  · subst hu; subst hl
    rcases hk with hk | ⟨hub, hlk⟩
    · have hsu := format_bytes_keyerror_of_ge uv hk
      simp only [format_memory_stats, if_neg h0, hsu]
    · obtain ⟨su, hsu⟩ := format_bytes_ok_of_lt uv hub
      have hsl := format_bytes_keyerror_of_ge lv hlk
      simp only [format_memory_stats, if_neg h0, hsu, hsl]

theorem format_memory_stats_spec_witness :
    format_memory_stats ⟨none, some 7⟩ = Except.ok "[grey50]—[/grey50]" ∧
    format_memory_stats ⟨some 1, some 0⟩ = Except.error "ZeroDivisionError" ∧
    (∃ s, format_memory_stats ⟨some 100, some 200⟩ = Except.ok s) ∧
    format_memory_stats ⟨some 3, some (1024 ^ 5)⟩ = Except.error "KeyError" :=
  ⟨(format_memory_stats_spec none (some 7)).1 (Or.inl rfl),
   (format_memory_stats_spec (some 1) (some 0)).2.1 1 0 rfl rfl rfl,
   (format_memory_stats_spec (some 100) (some 200)).2.2.1 100 200 rfl rfl
     (by norm_num) (by norm_num) (by norm_num),
   (format_memory_stats_spec (some 3) (some (1024 ^ 5))).2.2.2 3 (1024 ^ 5) rfl rfl
     (by norm_num) (Or.inr ⟨by norm_num, le_rfl⟩)⟩

theorem format_memory_stats_keyerror_counterexample :
    format_memory_stats ⟨some (1024 ^ 5), some (1024 ^ 5)⟩ = Except.error "KeyError" ∧
    (1024 ^ 5 : ℤ) ≠ 0 :=
  ⟨by with_unfolding_all rfl, by norm_num⟩

/-! ### Port formatting (`format_ports`) -/

theorem foldl_append_portLine (pd : List (String × Option (List Binding)))
    (acc : List String) :
    pd.foldl (fun parts pc => parts ++ [portLine pc]) acc = acc ++ pd.map portLine := by
  induction pd generalizing acc with
  | nil => simp
  | cons pc rest ih => simp [List.foldl_cons, ih]

/-- C7 (amended): `format_ports` yields `—` on an empty mapping and otherwise
one line per dict entry joined by newlines: a container port with a truthy
binding list gets `[host_ip:]host_port -> container_port` (host-ip prefix
suppressed exactly for `0.0.0.0` and `::`, fields read from the first
binding), while a container port without bindings still produces a line — the
dimmed container port — rather than being skipped. -/
theorem format_ports_spec (pd : List (String × Option (List Binding))) :
    (pd = [] → format_ports pd = "[grey50]—[/grey50]") ∧
    (pd ≠ [] → format_ports pd = String.intercalate "\n" (pd.map portLine)) ∧
    (∀ cp b rest, portLine (cp, some (b :: rest)) =
      (if b.HostIp.getD "0.0.0.0" = "0.0.0.0" ∨ b.HostIp.getD "0.0.0.0" = "::"
        then "" else b.HostIp.getD "0.0.0.0" ++ ":") ++
      b.HostPort.getD "?" ++ " -> " ++ cp) ∧
    (∀ cp, portLine (cp, none) = "[dim]" ++ cp ++ "[/dim]" ∧
      portLine (cp, some []) = "[dim]" ++ cp ++ "[/dim]") := by
  refine ⟨fun h => by simp [format_ports, h], fun h => ?_,
    fun cp b rest => rfl, fun cp => ⟨rfl, rfl⟩⟩
  simp [format_ports, h, foldl_append_portLine]

theorem format_ports_spec_witness :
    format_ports [] = "[grey50]—[/grey50]" ∧
    format_ports [("80/tcp", some [⟨some "8080", some "1.2.3.4"⟩]),
                  ("443/tcp", some [⟨some "8443", some "0.0.0.0"⟩])] =
      String.intercalate "\n"
        ([("80/tcp", some [⟨some "8080", some "1.2.3.4"⟩]),
          ("443/tcp", some [⟨some "8443", some "0.0.0.0"⟩])].map portLine) :=
  ⟨(format_ports_spec []).1 rfl,
   (format_ports_spec _).2.1 (by decide)⟩

theorem format_ports_unbound_counterexample :
    format_ports [("8000/tcp", none)] = "[dim]8000/tcp[/dim]" ∧
    "[dim]8000/tcp[/dim]" ≠ "" ∧ "[dim]8000/tcp[/dim]" ≠ "[grey50]—[/grey50]" :=
  ⟨rfl, by decide, by decide⟩

/-! ### Status and health formatting (`format_status`) -/

/-- C8 (amended): `format_status` classifies the raw status by substring
matching against the lowercase words `running`/`up`, `restarting`,
`exited`/`dead` (in that order), defaulting to `❓` with the capitalized raw
status; the health glyph is `—` when the health string is absent *or empty*
(Python truthiness), the three known glyphs for `healthy`/`unhealthy`/
`starting`, and the raw string for any other nonempty value. -/
theorem format_status_spec (cs : String) (hs : Option String) :
    ((strContains cs "running" = true ∨ strContains cs "up" = true) →
      (format_status cs hs).1 = "[green]✅ Up[/green]") ∧
    (strContains cs "running" = false → strContains cs "up" = false →
      strContains cs "restarting" = true →
      (format_status cs hs).1 = "[yellow]🔁 Restarting[/yellow]") ∧
    (strContains cs "running" = false → strContains cs "up" = false →
      strContains cs "restarting" = false →
      (strContains cs "exited" = true ∨ strContains cs "dead" = true) →
      (format_status cs hs).1 = "[red]❌ Down[/red]") ∧
    (strContains cs "running" = false → strContains cs "up" = false →
      strContains cs "restarting" = false → strContains cs "exited" = false →
      strContains cs "dead" = false →
      (format_status cs hs).1 = "[grey50]❓ " ++ capitalize cs ++ "[/grey50]") ∧
    ((hs = none ∨ hs = some "") → (format_status cs hs).2 = "[grey50]—[/grey50]") ∧
    (hs = some "healthy" → (format_status cs hs).2 = "[green]🟢 Healthy[/green]") ∧
    (hs = some "unhealthy" → (format_status cs hs).2 = "[red]🔴 Unhealthy[/red]") ∧
    (hs = some "starting" → (format_status cs hs).2 = "[yellow]🟡 Starting[/yellow]") ∧
    (∀ v, hs = some v → v ≠ "" → v ≠ "healthy" → v ≠ "unhealthy" → v ≠ "starting" →
      (format_status cs hs).2 = "[grey50]" ++ v ++ "[/grey50]") := by
  refine ⟨fun h => ?_, fun h1 h2 h3 => ?_, fun h1 h2 h3 h4 => ?_,
    fun h1 h2 h3 h4 h5 => ?_, fun h => ?_, fun h => ?_, fun h => ?_, fun h => ?_,
    fun v hv h1 h2 h3 h4 => ?_⟩
  · rcases h with h | h <;> simp [format_status, h]
  · simp [format_status, h1, h2, h3]
  · rcases h4 with h | h <;> simp [format_status, h1, h2, h3, h]
  · simp [format_status, h1, h2, h3, h4, h5]
  · rcases h with h | h <;> subst h <;> simp [format_status]
  · subst h; simp [format_status]
  · subst h; simp [format_status]
  · subst h; simp [format_status]
  · subst hv; simp [format_status, h1, h2, h3, h4]

theorem format_status_spec_witness :
    (format_status "running" (some "healthy")).1 = "[green]✅ Up[/green]" ∧
    (format_status "running" (some "healthy")).2 = "[green]🟢 Healthy[/green]" ∧
    (format_status "exited" none).1 = "[red]❌ Down[/red]" ∧
    (format_status "exited" none).2 = "[grey50]—[/grey50]" :=
  ⟨(format_status_spec "running" (some "healthy")).1 (Or.inl (by rfl)),
   (format_status_spec "running" (some "healthy")).2.2.2.2.2.1 rfl,
   (format_status_spec "exited" none).2.2.1 (by rfl) (by rfl) (by rfl)
     (Or.inl (by rfl)),
   (format_status_spec "exited" none).2.2.2.2.1 (Or.inl rfl)⟩

theorem format_status_empty_health_counterexample :
    (format_status "running" (some "")).2 = "[grey50]—[/grey50]" ∧
    "[grey50]—[/grey50]" ≠ "[grey50]" ++ "" ++ "[/grey50]" :=
  ⟨rfl, by decide⟩

/-! ### Selection preservation (`AppState.update_containers`) -/

theorem dictGet_dictInsert {K V : Type} [DecidableEq K]
    (d : List (K × V)) (k k' : K) (v : V) :
    dictGet (dictInsert k v d) k' = if k = k' then some v else dictGet d k' := by
  induction d with
  | nil => by_cases h : k = k' <;> simp [dictInsert, dictGet, h]
  | cons kv rest ih =>
    obtain ⟨k₀, v₀⟩ := kv
    by_cases h0 : k₀ = k
    · subst h0
      by_cases h : k₀ = k' <;> simp [dictInsert, dictGet, h]
    · by_cases h : k₀ = k'
      · subst h
        simp [dictInsert, dictGet, h0, Ne.symm h0, ih]
      · simp [dictInsert, dictGet, h0, h, ih]

theorem buildIdMapAux_get_of_not_mem (cs : List FlatContainer) (i : ℕ)
    (d : List (Option String × ℕ)) (k : Option String)
    (h : k ∉ cs.map FlatContainer.id) :
    dictGet (buildIdMapAux i cs d) k = dictGet d k := by
  induction cs generalizing i d with
  | nil => rfl
  | cons c rest ih =>
    simp only [List.map_cons, List.mem_cons, not_or] at h
    rw [buildIdMapAux, ih (i + 1) _ h.2, dictGet_dictInsert,
      if_neg (fun hc => h.1 hc.symm)]

theorem buildIdMapAux_get_of_nodup (cs : List FlatContainer) (i : ℕ)
    (d : List (Option String × ℕ)) (k : Option String) (j : ℕ)
    (hnd : (cs.map FlatContainer.id).Nodup) (hj : j < cs.length)
    (hid : (cs.get ⟨j, hj⟩).id = k) :
    dictGet (buildIdMapAux i cs d) k = some (i + j) := by
  induction cs generalizing i d j with
  | nil => exact absurd hj (Nat.not_lt_zero j)
  | cons c rest ih =>
    simp only [List.map_cons, List.nodup_cons] at hnd
    cases j with
    | zero =>
      have hcid : c.id = k := hid
      rw [buildIdMapAux, buildIdMapAux_get_of_not_mem rest (i + 1) _ k
        (by rw [← hcid]; exact hnd.1), dictGet_dictInsert, if_pos hcid,
        Nat.add_zero]
    | succ j' =>
      rw [buildIdMapAux, ih (i + 1) _ j' hnd.2 (Nat.lt_of_succ_lt_succ hj) hid]
      congr 1
      omega

/-- C1 (amended): `update_containers` preserves the selection by id through
the new id-to-index dict, with two provisos forced by the code.  First, the
guard `if current_id and current_id in ...` uses Python truthiness, so the
selection is preserved only for a *nonempty* selected id (an empty-string id
falls through to the reset branch).  Second, the dict comprehension lets a
later duplicate id overwrite an earlier one, so the claim holds as stated when
the new list's ids are distinct: then the selected id's position is unique and
`selected_index` moves there, regardless of reordering.  If the previously
selected id is absent from the new list (or falsy, or the new list is empty),
`selected_index` is set to 0. -/
theorem update_containers_selection (s : AppState) (new : List FlatContainer) :
    (∀ (x : String) (j : ℕ) (hj : j < new.length),
      getSelectedIdUnsafe s = some x → x ≠ "" →
      (new.map FlatContainer.id).Nodup → (new.get ⟨j, hj⟩).id = some x →
      (update_containers s new).selected_index = j) ∧
    ((pyTruthy (getSelectedIdUnsafe s) = false ∨
        getSelectedIdUnsafe s ∉ new.map FlatContainer.id) →
      (update_containers s new).selected_index = 0) := by
  constructor
  · intro x j hj hsel hx hnd hid
    have htr : pyTruthy (getSelectedIdUnsafe s) = true := by
      rw [hsel]; simp [pyTruthy, hx]
    have hget : dictGet (buildIdMap new) (getSelectedIdUnsafe s) = some (0 + j) := by
      rw [hsel]
      exact buildIdMapAux_get_of_nodup new 0 [] (some x) j hnd hj hid
    simp [update_containers, htr, hget]
  · intro h
    rcases h with h | h
    · simp [update_containers, h]
    · have hget : dictGet (buildIdMap new) (getSelectedIdUnsafe s) = none :=
        buildIdMapAux_get_of_not_mem new 0 [] _ h
      by_cases htr : pyTruthy (getSelectedIdUnsafe s) = true
      · simp [update_containers, htr, hget]
      · simp [update_containers, htr]

theorem update_containers_selection_witness :
    getSelectedIdUnsafe c1State = some "a" ∧
    (update_containers c1State c1NewList).selected_index = 1 :=
  ⟨rfl, (update_containers_selection c1State c1NewList).1 "a" 1 (by decide)
    rfl (by decide) (by decide) rfl⟩

theorem update_containers_empty_id_counterexample :
    getSelectedIdUnsafe c1EmptyIdState = some "" ∧
    c1EmptyIdNewList.map FlatContainer.id = [some "x", some ""] ∧
    (update_containers c1EmptyIdState c1EmptyIdNewList).selected_index = 0 :=
  ⟨rfl, rfl, by decide⟩

/-! ### Paging (`AppState.change_page`) -/

/-- C4 (amended): a `change_page(±1)` call (the handler of PageUp/PageDown)
moves the current page by exactly one step **modulo** the total page count —
it wraps around at both ends instead of clamping: stepping backwards from the
first page lands on the last page and stepping forwards from the last page
lands on the first.  Afterwards the page index lies in `[0, total_pages - 1]`.
With no pages (empty container list) the call leaves the state unchanged.
(The hypothesis `0 < projects_per_page` reflects the fixed value 5 set by
`__init__`; Python would raise `ZeroDivisionError` otherwise.) -/
theorem change_page_spec (s : AppState) (d : ℤ)
    (_hpp : 0 < s.projects_per_page) :
    (totalPagesOf s = 0 → change_page s d = s) ∧
    (0 < totalPagesOf s →
      (change_page s d).current_page = (s.current_page + d) % (totalPagesOf s : ℤ) ∧
      0 ≤ (change_page s d).current_page ∧
      (change_page s d).current_page < (totalPagesOf s : ℤ)) := by
  constructor
  · intro h
    simp [change_page, h]
  · intro h
    have hpos : (0 : ℤ) < (totalPagesOf s : ℤ) := by exact_mod_cast h
    have hne : ¬ (totalPagesOf s = 0) := by omega
    have h0 : 0 ≤ (s.current_page + d) % (totalPagesOf s : ℤ) :=
      Int.emod_nonneg _ hpos.ne'
    have hlt : (s.current_page + d) % (totalPagesOf s : ℤ) < (totalPagesOf s : ℤ) :=
      Int.emod_lt_of_pos _ hpos
    have key : (change_page s d).current_page =
        (s.current_page + d) % (totalPagesOf s : ℤ) := by
      simp only [change_page, if_neg hne, if_neg (not_lt.mpr h0)]
      split <;> first
        | rfl
        | (split <;> first
            | rfl
            | (split <;> rfl))
    exact ⟨key, key ▸ h0, key ▸ hlt⟩

theorem change_page_spec_witness :
    0 < c4State.projects_per_page ∧
    totalPagesOf c4State = 2 ∧
    (change_page c4State 1).current_page = (c4State.current_page + 1) % 2 ∧
    (change_page c4State 1).current_page = 1 :=
  ⟨by decide, by decide,
    by
      have := ((change_page_spec c4State 1 (by decide)).2 (by decide)).1
      rwa [show totalPagesOf c4State = 2 from by decide] at this,
    by decide⟩

theorem change_page_wrap_counterexample :
    totalPagesOf c4State = 2 ∧ c4State.current_page = 0 ∧
    (change_page c4State (-1)).current_page = 1 :=
  ⟨by decide, rfl, by decide⟩

/-! ### The Python string order agrees with the Lean string order -/

theorem charListLe_total : ∀ x y : List Char, charListLe x y = true ∨ charListLe y x = true := by
  intro x
  induction x with
  | nil => intro y; left; rfl
  | cons a as ih =>
    intro y
    cases y with
    | nil => right; rfl
    | cons b bs =>
      rcases lt_trichotomy a b with h | h | h
      · left; simp [charListLe, h]
      · subst h
        rcases ih bs with hl | hr
        · left; simpa [charListLe, lt_irrefl] using hl
        · right; simpa [charListLe, lt_irrefl] using hr
      · right; simp [charListLe, h]

theorem charListLe_trans : ∀ x y z : List Char,
    charListLe x y = true → charListLe y z = true → charListLe x z = true := by
  intro x
  induction x with
  | nil => intro y z _ _; rfl
  | cons a as ih =>
    intro y z hxy hyz
    cases y with
    | nil => simp [charListLe] at hxy
    | cons b bs =>
      cases z with
      | nil => simp [charListLe] at hyz
      | cons c cs =>
        rcases lt_trichotomy a b with hab | hab | hab <;>
          rcases lt_trichotomy b c with hbc | hbc | hbc
        · simp [charListLe, lt_trans hab hbc]
        · subst hbc; simp [charListLe, hab]
        · simp [charListLe, hbc, lt_asymm hbc] at hyz
        · subst hab; simp [charListLe, hbc]
        · subst hab; subst hbc
          simp only [charListLe, lt_irrefl, if_false] at hxy hyz ⊢
          exact ih bs cs hxy hyz
        · subst hab; simp [charListLe, hbc, lt_asymm hbc] at hyz
        · simp [charListLe, hab, lt_asymm hab] at hxy
        · subst hbc; simp [charListLe, hab, lt_asymm hab] at hxy
        · simp [charListLe, hab, lt_asymm hab] at hxy

theorem charListLe_iff_not_lex : ∀ x y : List Char,
    charListLe x y = true ↔ ¬ List.Lex (· < ·) y x := by
  intro x
  induction x with
  | nil =>
    intro y
    exact iff_of_true rfl (List.Lex.not_nil_right _ _)
  | cons a as ih =>
    intro y
    cases y with
    | nil =>
      refine iff_of_false (by simp [charListLe]) (fun h => h List.Lex.nil)
    | cons b bs =>
      rcases lt_trichotomy a b with h | h | h
      · refine iff_of_true (by simp [charListLe, h]) ?_
        intro hlex
        cases hlex with
        | cons h2 => exact lt_irrefl _ h
        | rel h2 => exact lt_asymm h h2
      · subst h
        have h2 : List.Lex (· < ·) (a :: bs) (a :: as) ↔ List.Lex (· < ·) bs as :=
          List.Lex.cons_iff
        simp only [charListLe, lt_irrefl, if_false, h2]
        exact ih bs
      · refine iff_of_false (by simp [charListLe, h, lt_asymm h]) ?_
        intro hn
        exact hn (List.Lex.rel h)

theorem pyLeP_iff_le (a b : String) : pyLeP a b ↔ a ≤ b := by
  rw [String.le_iff_toList_le, ← not_lt]
  exact charListLe_iff_not_lex a.data b.data

/-! ### Grouping (`get_grouped_containers`) -/

theorem addToGroup_keys (gs : List (String × List FormattedContainer))
    (f : FormattedContainer) :
    (addToGroup gs f).map Prod.fst =
      if f.project ∈ gs.map Prod.fst then gs.map Prod.fst
      else gs.map Prod.fst ++ [f.project] := by
  induction gs with
  | nil => simp [addToGroup]
  | cons pc rest ih =>
    obtain ⟨p, cs⟩ := pc
    by_cases h : p = f.project
    · subst h
      simp [addToGroup]
    · simp only [addToGroup, if_neg h, List.map_cons, List.mem_cons, ih]
      by_cases hmem : f.project ∈ rest.map Prod.fst
      · simp [hmem]
      · simp [hmem, Ne.symm h]

theorem addToGroup_keys_nodup (gs : List (String × List FormattedContainer))
    (f : FormattedContainer) (h : (gs.map Prod.fst).Nodup) :
    ((addToGroup gs f).map Prod.fst).Nodup := by
  rw [addToGroup_keys]
  split
  · exact h
  · next hmem => simp [List.nodup_append, h, hmem]

theorem addToGroup_project_key (gs : List (String × List FormattedContainer))
    (f : FormattedContainer)
    (hinv : ∀ pc ∈ gs, ∀ c ∈ pc.2, c.project = pc.1) :
    ∀ pc ∈ addToGroup gs f, ∀ c ∈ pc.2, c.project = pc.1 := by
  induction gs with
  | nil =>
    intro pc hpc c hc
    simp only [addToGroup, List.mem_singleton] at hpc
    subst hpc
    simp only [List.mem_singleton] at hc
    subst hc
    rfl
  | cons pc0 rest ih =>
    obtain ⟨p, cs⟩ := pc0
    intro pc hpc c hc
    by_cases h : p = f.project
    · subst h
      simp only [addToGroup, eq_self_iff_true, ite_true, List.mem_cons] at hpc
      rcases hpc with hpc | hpc
      · subst hpc
        simp only [List.mem_append, List.mem_singleton] at hc
        rcases hc with hc | hc
        · exact hinv (f.project, cs) (List.mem_cons_self _ _) c hc
        · subst hc; rfl
      · exact hinv pc (List.mem_cons_of_mem _ hpc) c hc
    · simp only [addToGroup, if_neg h, List.mem_cons] at hpc
      rcases hpc with hpc | hpc
      · subst hpc
        exact hinv (p, cs) (List.mem_cons_self _ _) c hc
      · exact ih (fun pc' hpc' => hinv pc' (List.mem_cons_of_mem _ hpc')) pc hpc c hc

theorem addToGroup_flatten_perm (gs : List (String × List FormattedContainer))
    (f : FormattedContainer) :
    ((addToGroup gs f).map Prod.snd).flatten.Perm
      ((gs.map Prod.snd).flatten ++ [f]) := by
  induction gs with
  | nil => simp [addToGroup]
  | cons pc rest ih =>
    obtain ⟨p, cs⟩ := pc
    by_cases h : p = f.project
    · subst h
      simp only [addToGroup, eq_self_iff_true, ite_true, List.map_cons,
        List.flatten_cons, List.append_assoc]
      exact List.Perm.append_left cs List.perm_append_comm
    · simp only [addToGroup, if_neg h, List.map_cons, List.flatten_cons,
        List.append_assoc]
      exact List.Perm.append_left cs ih

theorem foldl_addToGroup_keys_nodup (fs : List FormattedContainer) :
    ∀ gs, (gs.map Prod.fst).Nodup → ((fs.foldl addToGroup gs).map Prod.fst).Nodup := by
  induction fs with
  | nil => intro gs h; exact h
  | cons f rest ih =>
    intro gs h
    exact ih (addToGroup gs f) (addToGroup_keys_nodup gs f h)

theorem foldl_addToGroup_project_key (fs : List FormattedContainer) :
    ∀ gs, (∀ pc ∈ gs, ∀ c ∈ pc.2, c.project = pc.1) →
    ∀ pc ∈ fs.foldl addToGroup gs, ∀ c ∈ pc.2, c.project = pc.1 := by
  induction fs with
  | nil => intro gs h; exact h
  | cons f rest ih =>
    intro gs h
    exact ih (addToGroup gs f) (addToGroup_project_key gs f h)

theorem foldl_addToGroup_flatten_perm (fs : List FormattedContainer) :
    ∀ gs, ((fs.foldl addToGroup gs).map Prod.snd).flatten.Perm
      ((gs.map Prod.snd).flatten ++ fs) := by
  induction fs with
  | nil => intro gs; simp
  | cons f rest ih =>
    intro gs
    have h1 := ih (addToGroup gs f)
    have h2 : (((addToGroup gs f).map Prod.snd).flatten ++ rest).Perm
        ((gs.map Prod.snd).flatten ++ (f :: rest)) := by
      have := (addToGroup_flatten_perm gs f).append_right rest
      refine this.trans ?_
      simp [List.append_assoc]
    exact h1.trans h2

theorem mapE_mem {α β : Type} (f : α → Except String β) :
    ∀ (l : List α) (bs : List β), mapE f l = Except.ok bs →
    ∀ b ∈ bs, ∃ a ∈ l, f a = Except.ok b := by
  intro l
  induction l with
  | nil =>
    intro bs h b hb
    simp only [mapE, Except.ok.injEq] at h
    subst h
    exact absurd hb (List.not_mem_nil b)
  | cons a as ih =>
    intro bs h b hb
    simp only [mapE] at h
    cases hfa : f a with
    | error e => rw [hfa] at h; exact absurd h (by simp)
    | ok b0 =>
      rw [hfa] at h
      cases hrest : mapE f as with
      | error e => rw [hrest] at h; exact absurd h (by simp)
      | ok bs' =>
        rw [hrest] at h
        simp only [Except.ok.injEq] at h
        subst h
        rcases List.mem_cons.mp hb with hb | hb
        · exact ⟨a, List.mem_cons_self _ _, hb ▸ hfa⟩
        · obtain ⟨a', ha', hfa'⟩ := ih bs' hrest b hb
          exact ⟨a', List.mem_cons_of_mem _ ha', hfa'⟩

theorem formatContainer_project (fmtUptime : Option String → String)
    (c : ContainerInput) (fc : FormattedContainer)
    (h : formatContainer fmtUptime c = Except.ok fc) :
    fc.project = get_compose_project_name c.labels := by
  simp only [formatContainer] at h
  split at h
  · exact absurd h (by simp)
  · rw [← Except.ok.inj h]

theorem flatten_map_sortInner_perm :
    ∀ gs : List (String × List FormattedContainer),
    ((gs.map fun pc => (pc.1, List.insertionSort nameLe pc.2)).map Prod.snd).flatten.Perm
      ((gs.map Prod.snd).flatten) := by
  intro gs
  induction gs with
  | nil => simp
  | cons pc rest ih =>
    simp only [List.map_cons, List.flatten_cons]
    exact (List.perm_insertionSort nameLe pc.2).append ih

/-- C2: for every container list on which no formatting step raises, the
snapshot produced by `get_grouped_containers` places each container under its
`com.docker.compose.project` label value (`"(No Project)"` when absent): the
outer project keys are strictly sorted by name, the containers inside each
project are sorted by name, every record's `project` field equals its group
key and equals its input's compose label, and the groups' contents are exactly
(a permutation of) the formatted inputs. -/
theorem get_grouped_containers_spec (fmtUptime : Option String → String)
    (containers : List ContainerInput)
    (g : List (String × List FormattedContainer))
    (h : get_grouped_containers fmtUptime containers = Except.ok g) :
    (g.map Prod.fst).Sorted (· < ·) ∧
    (∀ pc ∈ g, pc.2.Pairwise (fun a b => a.name ≤ b.name)) ∧
    (∀ pc ∈ g, ∀ c ∈ pc.2, c.project = pc.1) ∧
    ∃ fs, mapE (formatContainer fmtUptime) containers = Except.ok fs ∧
      ((g.map Prod.snd).flatten).Perm fs ∧
      ∀ f ∈ fs, ∃ inp ∈ containers, formatContainer fmtUptime inp = Except.ok f ∧
        f.project = get_compose_project_name inp.labels := by
  haveI : IsTotal (String × List FormattedContainer) keyLe :=
    ⟨fun a b => charListLe_total a.1.data b.1.data⟩
  haveI : IsTrans (String × List FormattedContainer) keyLe :=
    ⟨fun a b c => charListLe_trans a.1.data b.1.data c.1.data⟩
  haveI : IsTotal FormattedContainer nameLe :=
    ⟨fun a b => charListLe_total a.name.data b.name.data⟩
  haveI : IsTrans FormattedContainer nameLe :=
    ⟨fun a b c => charListLe_trans a.name.data b.name.data c.name.data⟩
  unfold get_grouped_containers at h
  cases hfs : mapE (formatContainer fmtUptime) containers with
  | error e => rw [hfs] at h; exact absurd h (by simp)
  | ok fs =>
    rw [hfs] at h
    simp only [Except.ok.injEq] at h
    set grouped := fs.foldl addToGroup [] with hgrouped
    set sortedGroups := grouped.map fun pc => (pc.1, List.insertionSort nameLe pc.2)
      with hsg
    have hg : g = List.insertionSort keyLe sortedGroups := h.symm
    have hpermSort : (List.insertionSort keyLe sortedGroups).Perm sortedGroups :=
      List.perm_insertionSort keyLe sortedGroups
    have hkeysEq : sortedGroups.map Prod.fst = grouped.map Prod.fst := by
      rw [hsg, List.map_map]
      rfl
    have hkeysNodup : (grouped.map Prod.fst).Nodup :=
      foldl_addToGroup_keys_nodup fs [] (by simp)
    refine ⟨?_, ?_, ?_, fs, rfl, ?_, ?_⟩
    · have hs : (List.insertionSort keyLe sortedGroups).Sorted keyLe :=
        List.sorted_insertionSort keyLe sortedGroups
      have hmap : ((List.insertionSort keyLe sortedGroups).map Prod.fst).Sorted pyLeP :=
        List.Pairwise.map Prod.fst (fun a b hab => hab) hs
      have hle : ((List.insertionSort keyLe sortedGroups).map Prod.fst).Sorted (· ≤ ·) :=
        hmap.imp fun hab => (pyLeP_iff_le _ _).mp hab
      have hnd : ((List.insertionSort keyLe sortedGroups).map Prod.fst).Nodup := by
        refine ((hpermSort.map Prod.fst).nodup_iff).mpr ?_
        rw [hkeysEq]
        exact hkeysNodup
      rw [hg]
      exact hle.lt_of_le hnd
    · intro pc hpc
      rw [hg] at hpc
      have hpc' : pc ∈ sortedGroups := (List.mem_insertionSort keyLe).mp hpc
      obtain ⟨pc0, _, hpc0⟩ := List.mem_map.mp hpc'
      have hs : (List.insertionSort nameLe pc0.2).Sorted nameLe :=
        List.sorted_insertionSort nameLe pc0.2
      have : pc.2 = List.insertionSort nameLe pc0.2 := by rw [← hpc0]
      rw [this]
      exact hs.imp fun hab => (pyLeP_iff_le _ _).mp hab
    · intro pc hpc c hc
      rw [hg] at hpc
      have hpc' : pc ∈ sortedGroups := (List.mem_insertionSort keyLe).mp hpc
      obtain ⟨pc0, hpc0mem, hpc0⟩ := List.mem_map.mp hpc'
      have h2 : pc.2 = List.insertionSort nameLe pc0.2 := by rw [← hpc0]
      have h1 : pc.1 = pc0.1 := by rw [← hpc0]
      rw [h2] at hc
      have hc' : c ∈ pc0.2 := (List.mem_insertionSort nameLe).mp hc
      rw [h1]
      exact foldl_addToGroup_project_key fs [] (by simp) pc0 hpc0mem c hc'
    · have hA : ((g.map Prod.snd).flatten).Perm ((sortedGroups.map Prod.snd).flatten) := by
        rw [hg]
        exact (hpermSort.map Prod.snd).flatten
      have hB : ((sortedGroups.map Prod.snd).flatten).Perm ((grouped.map Prod.snd).flatten) := by
        rw [hsg]
        exact flatten_map_sortInner_perm grouped
      have hC : ((grouped.map Prod.snd).flatten).Perm fs := by
        have := foldl_addToGroup_flatten_perm fs []
        simpa using this
      exact (hA.trans hB).trans hC
    · intro f hf
      obtain ⟨inp, hinp, hok⟩ := mapE_mem (formatContainer fmtUptime) containers fs hfs f hf
      exact ⟨inp, hinp, hok, formatContainer_project fmtUptime inp f hok⟩

theorem get_grouped_containers_spec_witness :
    ∃ g, get_grouped_containers (fun _ => "—") c2Inputs = Except.ok g ∧
      (g.map Prod.fst).Sorted (· < ·) ∧
      (∀ pc ∈ g, ∀ c ∈ pc.2, c.project = pc.1) ∧
      g.map Prod.fst = ["(No Project)", "beta"] :=
  ⟨_, rfl, (get_grouped_containers_spec (fun _ => "—") c2Inputs _ rfl).1,
    (get_grouped_containers_spec (fun _ => "—") c2Inputs _ rfl).2.2.1, rfl⟩

end DockedUp
